import Mathlib

/-!
Verification of the finance-detective indicator pipeline.

The Python source computes technical indicators over pandas Series of
floating-point closes.  The shallow embedding below represents a price
series as a `List PriceBar` over `ℚ`; a pandas Series whose entries may
be NaN is represented as `List (Option ℚ)` (`none` = NaN / undefined),
and pandas' skipna aggregation is modelled by aggregating over the
defined entries only.  Quantities whose definition involves a real
square root (standard deviation, Sharpe ratio, Bollinger bands) live in
`Option ℝ`.  Float division by zero (which produces NaN/±inf in the
source and is surfaced as an undefined result) is modelled as `none`.
-/

namespace FinanceDetective

/-- One OHLC bar of the fetched price history (only the columns that
`analyze_stock` reads: High, Low, Close). -/
structure PriceBar where
  high : ℚ
  low : ℚ
  close : ℚ
deriving DecidableEq

instance : Inhabited PriceBar := ⟨⟨0, 0, 0⟩⟩

/-- A pandas Series with possibly-undefined (NaN) entries. -/
abbrev OSer (K : Type) := List (Option K)

/-- The defined (non-NaN) entries of a series, in order. -/
def somes {K : Type} (s : OSer K) : List K := s.filterMap id

/-- Arithmetic mean of a list; `none` on the empty list (pandas returns
NaN for the mean of an empty/all-NaN series). -/
def listMean {K : Type} [DivisionRing K] (l : List K) : Option K :=
  if l.length = 0 then none else some (l.sum / l.length)

/-- Sample variance with ddof = 1 (pandas `std`/`var` default); `none`
when fewer than two values are available. -/
def sampleVar {K : Type} [Field K] (l : List K) : Option K :=
  if l.length < 2 then none
  else some ((l.map (fun x => (x - l.sum / l.length) ^ 2)).sum / ((l.length : K) - 1))

/-- Series mean with pandas skipna semantics. -/
def seriesMean {K : Type} [DivisionRing K] (s : OSer K) : Option K := listMean (somes s)

/-- Series sample variance (ddof = 1) with pandas skipna semantics. -/
def seriesVar {K : Type} [Field K] (s : OSer K) : Option K := sampleVar (somes s)

/-- `Series.pct_change()`: undefined at index 0; undefined (NaN/inf in
floats) when the previous value is 0. -/
def pctChange (xs : List ℚ) : OSer ℚ :=
  (List.range xs.length).map fun t =>
    if t = 0 then none
    else if xs.getD (t - 1) 0 = 0 then none
    else some ((xs.getD t 0 - xs.getD (t - 1) 0) / xs.getD (t - 1) 0)

/-- `Series.diff()`: undefined at index 0. -/
def diffSeries (xs : List ℚ) : OSer ℚ :=
  (List.range xs.length).map fun t =>
    if t = 0 then none else some (xs.getD t 0 - xs.getD (t - 1) 0)

/-- The trailing window of positions `max 0 (t+1-w) .. t` of a series. -/
def window {K : Type} (w t : ℕ) (s : OSer K) : OSer K :=
  (List.range' (t + 1 - w) (t + 1 - (t + 1 - w))).map (fun i => s.getD i none)

/-- `Series.rolling(window=w).mean()` with the default
`min_periods = w`: defined at `t` only when the trailing window holds
`w` defined values. -/
def rollingMean (w : ℕ) (s : OSer ℚ) : OSer ℚ :=
  (List.range s.length).map fun t =>
    let vals := somes (window w t s)
    if vals.length = w then listMean vals else none

/-- `Series.rolling(window=w).std()` surfaced as the sample variance
(ddof = 1); the square root is taken where the bands are formed. -/
def rollingVar (w : ℕ) (s : OSer ℚ) : OSer ℚ :=
  (List.range s.length).map fun t =>
    let vals := somes (window w t s)
    if vals.length = w then sampleVar vals else none

/-- `Series.ewm(adjust=False).mean()` with smoothing factor `a`:
seeded with the first input value, then
`e[t] = a * x[t] + (1 - a) * e[t-1]`. -/
def emaRec (a : ℚ) : List ℚ → List ℚ
  | [] => []
  | x :: xs => List.scanl (fun e y => a * y + (1 - a) * e) x xs

/-- `Series.ewm(span=span, adjust=False).mean()`: the smoothing factor
is `2 / (span + 1)`. -/
def emaSpan (span : ℕ) (xs : List ℚ) : List ℚ :=
  emaRec (2 / ((span : ℚ) + 1)) xs

/-- The Close column of a price series. -/
def closes (bars : List PriceBar) : List ℚ := bars.map PriceBar.close

/-- `price_data['Close'].pct_change()` — the Daily Return column. -/
def dailyReturn (bars : List PriceBar) : OSer ℚ := pctChange (closes bars)

/-- `price_data['Daily Return'].std()`: sample standard deviation of
the defined daily returns. -/
noncomputable def volatilityVal (bars : List PriceBar) : Option ℝ :=
  (seriesVar (dailyReturn bars)).map (fun v => Real.sqrt (v : ℝ))

/-- `(avg_daily_return / volatility) * np.sqrt(trading_days)` with
`trading_days = len(price_data)`.  A zero or undefined standard
deviation makes the float quotient NaN/±inf; both are modelled as
`none`. -/
noncomputable def sharpeVal (bars : List PriceBar) : Option ℝ :=
  match seriesMean (dailyReturn bars), seriesVar (dailyReturn bars) with
  | some m, some v =>
      if v = 0 then none
      else some ((m : ℝ) / Real.sqrt (v : ℝ) * Real.sqrt (bars.length : ℝ))
  | _, _ => none

/-- `macd = exp12 - exp26` (EMA span 12 minus EMA span 26 of Close). -/
def macdSeries (xs : List ℚ) : List ℚ :=
  List.zipWith (fun a b => a - b) (emaSpan 12 xs) (emaSpan 26 xs)

/-- `signal = macd.ewm(span=9, adjust=False).mean()`. -/
def signalSeries (xs : List ℚ) : List ℚ := emaSpan 9 (macdSeries xs)

/-- `SMA20 = Close.rolling(window=20).mean()`. -/
def sma20 (xs : List ℚ) : OSer ℚ := rollingMean 20 (xs.map some)

/-- Rolling 20-period sample variance of Close (the square of the
rolling std used by the Bollinger bands). -/
def var20 (xs : List ℚ) : OSer ℚ := rollingVar 20 (xs.map some)

/-- `UpperBand = SMA20 + Close.rolling(20).std() * 2`. -/
noncomputable def upperBand (xs : List ℚ) : OSer ℝ :=
  List.zipWith (fun m v =>
    match m, v with
    | some m, some v => some ((m : ℝ) + Real.sqrt (v : ℝ) * 2)
    | _, _ => none) (sma20 xs) (var20 xs)

/-- `LowerBand = SMA20 - Close.rolling(20).std() * 2`. -/
noncomputable def lowerBand (xs : List ℚ) : OSer ℝ :=
  List.zipWith (fun m v =>
    match m, v with
    | some m, some v => some ((m : ℝ) - Real.sqrt (v : ℝ) * 2)
    | _, _ => none) (sma20 xs) (var20 xs)

/-- `BB_Gap = UpperBand - LowerBand`. -/
noncomputable def bbGap (xs : List ℚ) : OSer ℝ :=
  List.zipWith (fun a b =>
    match a, b with
    | some a, some b => some (a - b)
    | _, _ => none) (upperBand xs) (lowerBand xs)

/-- `delta.where(delta > 0, 0)`: positive deltas kept, everything else
(including the NaN at index 0, whose comparison is False) becomes 0, so
the result is defined everywhere. -/
def gainInput (xs : List ℚ) : OSer ℚ :=
  (diffSeries xs).map (fun d => some (if 0 < d.getD 0 then d.getD 0 else 0))

/-- `-(delta.where(delta < 0, 0))`: absolute negative deltas, everything
else (including the NaN at index 0) becomes 0. -/
def lossInput (xs : List ℚ) : OSer ℚ :=
  (diffSeries xs).map (fun d => some (if d.getD 0 < 0 then -(d.getD 0) else 0))

/-- `gain = (delta.where(delta > 0, 0)).rolling(window=14).mean()`. -/
def gains (xs : List ℚ) : OSer ℚ := rollingMean 14 (gainInput xs)

/-- `loss = (-delta.where(delta < 0, 0)).rolling(window=14).mean()`. -/
def losses (xs : List ℚ) : OSer ℚ := rollingMean 14 (lossInput xs)

/-- `RSI = 100 - 100 / (1 + gain / loss)` under float semantics: when
`loss = 0` and `gain` is nonzero the quotient is ±inf and the RSI
evaluates to exactly 100; when both are 0 the result is NaN (`none`). -/
def rsiSeries (xs : List ℚ) : OSer ℚ :=
  List.zipWith (fun g l =>
    match g, l with
    | some g, some l =>
        if l = 0 then (if g = 0 then none else some 100)
        else some (100 - 100 / (1 + g / l))
    | _, _ => none) (gains xs) (losses xs)

/-- True Range per bar: the rowwise skipna maximum of `high - low`,
`|high - prev_close|`, `|low - prev_close|` (`np.max(ranges, axis=1)`
dispatches to `DataFrame.max(axis=1)`, which skips the NaN
previous-close terms at index 0). -/
def trueRange (bars : List PriceBar) : OSer ℚ :=
  (List.range bars.length).map fun t =>
    let b := bars.getD t default
    if t = 0 then some (b.high - b.low)
    else
      let pc := (bars.getD (t - 1) default).close
      some (max (b.high - b.low) (max |b.high - pc| |b.low - pc|))

/-- `true_range.rolling(window=14).mean()`. -/
def atrSeries (bars : List PriceBar) : OSer ℚ := rollingMean 14 (trueRange bars)

/-- `calculate_roc` with the default `n = 12`:
`(Close - Close.shift(12)) / Close.shift(12) * 100`; undefined for the
first 12 indices and where the shifted close is 0. -/
def rocSeries (xs : List ℚ) : OSer ℚ :=
  (List.range xs.length).map fun t =>
    if t < 12 then none
    else if xs.getD (t - 12) 0 = 0 then none
    else some ((xs.getD t 0 - xs.getD (t - 12) 0) / xs.getD (t - 12) 0 * 100)

/-- The scalar fields of the per-ticker record returned by
`analyze_stock` (the series retained for charting are recoverable from
the series functions above). -/
structure IndicatorResult where
  latest_price : Option ℚ
  volatility : Option ℝ
  avg_daily_return : Option ℚ
  sharpe : Option ℝ
  macd : Option ℚ
  macd_signal : Option ℚ
  upper_band : Option ℝ
  lower_band : Option ℝ
  avg_bb_gap : Option ℝ
  rsi : Option ℚ
  atr : Option ℚ
  avg_roc : Option ℚ
  latest_roc : Option ℚ

/-- `analyze_stock` on one ticker's price data (`news_data` is read but
never used by the analysis).  Each `iloc[-1]` access is modelled by
`getLast?`; on a NaN-valued last element the surfaced scalar is
undefined. -/
noncomputable def analyzeStock (bars : List PriceBar) : IndicatorResult :=
  let xs := closes bars
  { latest_price := xs.getLast?
    volatility := volatilityVal bars
    avg_daily_return := seriesMean (dailyReturn bars)
    sharpe := sharpeVal bars
    macd := (macdSeries xs).getLast?
    macd_signal := (signalSeries xs).getLast?
    upper_band := ((upperBand xs).getLast?).bind id
    lower_band := ((lowerBand xs).getLast?).bind id
    avg_bb_gap := seriesMean (bbGap xs)
    rsi := ((rsiSeries xs).getLast?).bind id
    atr := ((atrSeries bars).getLast?).bind id
    avg_roc := seriesMean (rocSeries xs)
    latest_roc := ((rocSeries xs).getLast?).bind id }

/-! ### Configuration stage (`config.py`, `main.py`) -/

/-- A YAML value as far as `validate_config` inspects it: a string, a
list of strings, or null (an empty YAML value). -/
inductive CVal where
  | str (s : String)
  | strList (l : List String)
  | nullv
deriving DecidableEq

/-- The configuration mapping; `none` in a field means the key is
absent from the file. -/
structure RawConfig where
  stocks : Option CVal
  start_date : Option CVal
  end_date : Option CVal
  report_format : Option CVal
deriving DecidableEq

/-- `validate_config`: every key in
`['stocks', 'start_date', 'end_date', 'report_format']` must be
present (checked in that order); `stocks` must be a non-empty list;
`report_format` must be `pdf` or `txt`. -/
def validateConfig (c : RawConfig) : Except String Unit :=
  if c.stocks = none then Except.error "Missing required configuration key: stocks"
  else if c.start_date = none then Except.error "Missing required configuration key: start_date"
  else if c.end_date = none then Except.error "Missing required configuration key: end_date"
  else if c.report_format = none then Except.error "Missing required configuration key: report_format"
  else match c.stocks with
    | some (CVal.strList l) =>
        if l = [] then Except.error "'stocks' must be a non-empty list"
        else if c.report_format = some (CVal.str "pdf") ∨ c.report_format = some (CVal.str "txt")
          then Except.ok ()
          else Except.error "'report_format' must be either 'pdf' or 'txt'"
    | _ => Except.error "'stocks' must be a non-empty list"

/-- Python falsiness of a config value, as used by
`if 'end_date' not in case_details or not case_details['end_date']`:
an absent key, null, the empty string and the empty list are falsy. -/
def isFalsy (v : Option CVal) : Bool :=
  match v with
  | none => true
  | some CVal.nullv => true
  | some (CVal.str s) => s = ""
  | some (CVal.strList l) => l = []

/-- The date-defaulting block of `investigate_finances`: a falsy
`end_date` becomes today's date, then a falsy `start_date` becomes the
date one year prior. -/
def applyDateDefaults (c : RawConfig) (today oneYearPrior : String) : RawConfig :=
  let c1 := if isFalsy c.end_date then { c with end_date := some (CVal.str today) } else c
  if isFalsy c1.start_date then { c1 with start_date := some (CVal.str oneYearPrior) } else c1

/-! ### Evidence gathering stage (`data_gatherer.py`) -/

/-- `collect_evidence`, with the external fetch modelled as an oracle:
`fetch s = none` means the fetch for ticker `s` raised (network error,
provider error, or empty data) and was logged and skipped.  The run
aborts with an exception exactly when the evidence locker stays
empty. -/
def collectEvidence {τ : Type} (fetch : String → Option τ) (stocks : List String) :
    Except String (List (String × τ)) :=
  let locker := stocks.filterMap (fun s => (fetch s).map (fun d => (s, d)))
  if locker.isEmpty then Except.error "No data could be retrieved for any of the stocks."
  else Except.ok locker

/-! ### Analysis dispatch and merge (`analyze_clues`) -/

/-- The merge loop `for stock, result in results: analyzed_data[stock] = result`:
a dict built by keyed insertion, starting from the empty dict. -/
def buildDict {R : Type} (rs : List (String × R)) : String → Option R :=
  rs.foldl (fun m p => Function.update m p.1 (some p.2)) (fun _ => none)

/-- `analyze_clues`: `pool.map(analyze_stock, evidence.items())`
followed by the keyed merge into one mapping. -/
noncomputable def analyzeClues (evidence : List (String × List PriceBar)) :
    String → Option IndicatorResult :=
  buildDict (evidence.map (fun p => (p.1, analyzeStock p.2)))

/-! ### Report compilation stage (`report_compiler.py`) -/

/-- The value compiled from the analyzed clues: the primary output path
and the `temp_files` list handed back for the caller to delete. -/
structure ReportOutput where
  output_file : String
  temp_files : List String
deriving DecidableEq

/-- The per-ticker intermediate PDFs produced before the merge. -/
def pdfFiles (tickers : List String) : List String :=
  tickers.map (fun s => "financial_case_file_" ++ s ++ ".pdf")

/-- The chart images saved per ticker before the merge. -/
def chartFiles (tickers : List String) : List String :=
  tickers.flatMap (fun s => [s ++ "_price_bb_rsi_chart.png", s ++ "_macd_chart.png"])

/-- The argument of the `_cleanup_temp_files(pdf_files + temp_files)`
call made inside `_generate_pdf_report` before it returns. -/
def pdfCleanupArg (tickers : List String) : List String :=
  pdfFiles tickers ++ chartFiles tickers

/-- `compile_case_file` (file-name skeleton of the two render paths):
both paths return an empty `temp_files` list — the PDF path deletes its
intermediates itself before returning — and an unsupported format is a
hard failure. -/
def compileCaseFile (_tickers : List String) (fmt : String) : Except String ReportOutput :=
  if fmt = "pdf" then Except.ok ⟨"financial_case_file_complete.pdf", []⟩
  else if fmt = "txt" then Except.ok ⟨"financial_case_file.txt", []⟩
  else Except.error ("Unsupported report format: " ++ fmt)

/-! ### In-place mutation of the price frame (`analyze_stock`) -/

/-- The columns of the price DataFrame handed to `analyze_stock` by the
gatherer (yfinance `Ticker.history` output). -/
def inputColumns : List String :=
  ["Open", "High", "Low", "Close", "Volume", "Dividends", "Stock Splits"]

/-- The column assignments `price_data[...] = ...` performed by
`analyze_stock` on its input frame, in program order. -/
def analyzeStockColumnWrites : List String :=
  ["Daily Return", "SMA20", "UpperBand", "LowerBand", "BB_Gap", "RSI", "ROC"]

/-- Column set of the input frame after `analyze_stock` runs: each
assignment to a fresh column name appends it. -/
def mutatedColumns (cols : List String) : List String :=
  analyzeStockColumnWrites.foldl (fun cs c => if c ∈ cs then cs else cs ++ [c]) cols

/-! ### General lemmas about the series combinators -/

theorem getD_range_map {α : Type} (f : ℕ → α) {n t : ℕ} (d : α) (h : t < n) :
    ((List.range n).map f).getD t d = f t := by
  rw [List.getD_eq_getElem?_getD, List.getElem?_map, List.getElem?_range h]
  rfl

theorem getD_zipWith {α β γ : Type} (f : α → β → γ) (l1 : List α) (l2 : List β)
    {t : ℕ} (d1 : α) (d2 : β) (d3 : γ) (h1 : t < l1.length) (h2 : t < l2.length) :
    (List.zipWith f l1 l2).getD t d3 = f (l1.getD t d1) (l2.getD t d2) := by
  have hz : t < (List.zipWith f l1 l2).length := by
    rw [List.length_zipWith]; exact lt_min h1 h2
  rw [List.getD_eq_getElem _ _ hz, List.getD_eq_getElem _ _ h1, List.getD_eq_getElem _ _ h2,
    List.getElem_zipWith]

theorem somes_all_eq {K : Type} {s : OSer K} {c : K} (h : ∀ x ∈ s, x = some c) :
    somes s = List.replicate s.length c := by
  induction s with
  | nil => rfl
  | cons a tl ih =>
      have ha : a = some c := h a (by simp)
      subst ha
      simp only [somes, List.filterMap_cons, id, List.length_cons, List.replicate_succ]
      exact congrArg (c :: ·) (ih (fun x hx => h x (by simp [hx])))

theorem somes_length_of_isSome {K : Type} {s : OSer K} (h : ∀ x ∈ s, x.isSome) :
    (somes s).length = s.length := by
  induction s with
  | nil => rfl
  | cons a tl ih =>
      obtain ⟨y, hy⟩ := Option.isSome_iff_exists.mp (h a (by simp))
      subst hy
      simp only [somes, List.filterMap_cons, id, List.length_cons]
      exact congrArg (· + 1) (ih (fun x hx => h x (by simp [hx])))

theorem mem_somes {K : Type} {s : OSer K} {a : K} : a ∈ somes s ↔ some a ∈ s := by
  simp [somes, List.mem_filterMap]

theorem listMean_replicate {K : Type} [Field K] [CharZero K] {k : ℕ} (c : K)
    (hk : k ≠ 0) : listMean (List.replicate k c) = some c := by
  have hkK : (k : K) ≠ 0 := Nat.cast_ne_zero.mpr hk
  simp only [listMean, List.length_replicate, List.sum_replicate, nsmul_eq_mul]
  rw [if_neg hk, mul_div_cancel_left₀ c hkK]

theorem sampleVar_replicate {K : Type} [Field K] [CharZero K] {k : ℕ} (c : K)
    (hk : 2 ≤ k) : sampleVar (List.replicate k c) = some 0 := by
  have hk0 : (k : K) ≠ 0 := Nat.cast_ne_zero.mpr (by omega)
  simp only [sampleVar, List.length_replicate, List.sum_replicate, nsmul_eq_mul,
    List.map_replicate]
  rw [if_neg (by omega), mul_div_cancel_left₀ c hk0]
  simp

theorem listMean_isSome {K : Type} [DivisionRing K] {l : List K} (h : l.length ≠ 0) :
    (listMean l).isSome := by
  simp [listMean, h]

/-! ### Lemmas about the trailing window and the rolling aggregations -/

theorem window_length {K : Type} (w t : ℕ) (s : OSer K) :
    (window w t s).length = t + 1 - (t + 1 - w) := by
  simp [window]

theorem window_forall {K : Type} {P : Option K → Prop} {w t : ℕ} {s : OSer K}
    (ht : t < s.length) (h : ∀ x ∈ s, P x) : ∀ x ∈ window w t s, P x := by
  intro x hx
  simp only [window, List.mem_map, List.mem_range'_1] at hx
  obtain ⟨i, ⟨h1, h2⟩, rfl⟩ := hx
  have hi : i < s.length := by omega
  rw [List.getD_eq_getElem _ _ hi]
  exact h _ (List.getElem_mem hi)

theorem rollingMean_getD {w t : ℕ} {s : OSer ℚ} (ht : t < s.length) :
    (rollingMean w s).getD t none =
      (if (somes (window w t s)).length = w then listMean (somes (window w t s)) else none) := by
  unfold rollingMean
  exact getD_range_map _ _ ht

theorem rollingVar_getD {w t : ℕ} {s : OSer ℚ} (ht : t < s.length) :
    (rollingVar w s).getD t none =
      (if (somes (window w t s)).length = w then sampleVar (somes (window w t s)) else none) := by
  unfold rollingVar
  exact getD_range_map _ _ ht

theorem rollingMean_const {w t : ℕ} {s : OSer ℚ} {c : ℚ} (hw : 0 < w) (ht : t < s.length)
    (h : ∀ x ∈ s, x = some c) :
    (rollingMean w s).getD t none = if w ≤ t + 1 then some c else none := by
  rw [rollingMean_getD ht]
  have hall : ∀ x ∈ window w t s, x = some c := window_forall ht h
  have hlen : (somes (window w t s)).length = t + 1 - (t + 1 - w) := by
    rw [somes_all_eq hall, List.length_replicate, window_length]
  by_cases hc : w ≤ t + 1
  · have hwin : (somes (window w t s)).length = w := by omega
    rw [if_pos hwin, if_pos hc, somes_all_eq hall, window_length]
    have : t + 1 - (t + 1 - w) = w := by omega
    rw [this]
    exact listMean_replicate c (by omega)
  · rw [if_neg (by omega), if_neg hc]

theorem rollingVar_const {w t : ℕ} {s : OSer ℚ} {c : ℚ} (hw : 2 ≤ w) (ht : t < s.length)
    (h : ∀ x ∈ s, x = some c) :
    (rollingVar w s).getD t none = if w ≤ t + 1 then some 0 else none := by
  rw [rollingVar_getD ht]
  have hall : ∀ x ∈ window w t s, x = some c := window_forall ht h
  have hlen : (somes (window w t s)).length = t + 1 - (t + 1 - w) := by
    rw [somes_all_eq hall, List.length_replicate, window_length]
  by_cases hc : w ≤ t + 1
  · have hwin : (somes (window w t s)).length = w := by omega
    rw [if_pos hwin, if_pos hc, somes_all_eq hall, window_length]
    have : t + 1 - (t + 1 - w) = w := by omega
    rw [this]
    exact sampleVar_replicate c hw
  · rw [if_neg (by omega), if_neg hc]

theorem rollingMean_isSome {w t : ℕ} {s : OSer ℚ} (hw : 0 < w) (ht : t < s.length)
    (h : ∀ x ∈ s, x.isSome) :
    ((rollingMean w s).getD t none).isSome ↔ w ≤ t + 1 := by
  rw [rollingMean_getD ht]
  have hlen : (somes (window w t s)).length = t + 1 - (t + 1 - w) := by
    rw [somes_length_of_isSome (window_forall ht h), window_length]
  by_cases hc : w ≤ t + 1
  · have hwin : (somes (window w t s)).length = w := by omega
    rw [if_pos hwin]
    have hne : (somes (window w t s)).length ≠ 0 := by omega
    exact iff_of_true (listMean_isSome hne) hc
  · rw [if_neg (by omega)]
    exact iff_of_false (by simp) hc

/-! ### Lemmas about the recursive EMA -/

theorem scanl_getD_zero {α β : Type} (f : β → α → β) (b d : β) (l : List α) :
    (List.scanl f b l).getD 0 d = b := by
  cases l <;> simp [List.scanl]

theorem scanl_getD_succ {α β : Type} (f : β → α → β) (b d : β) (l : List α) (da : α) :
    ∀ t, t < l.length →
      (List.scanl f b l).getD (t + 1) d = f ((List.scanl f b l).getD t d) (l.getD t da) := by
  induction l generalizing b with
  | nil => intro t ht; simp at ht
  | cons a tl ih =>
      intro t ht
      rw [List.scanl_cons]
      cases t with
      | zero =>
          simp only [List.cons_append, List.nil_append, List.getD_cons_succ, List.getD_cons_zero]
          rw [scanl_getD_zero]
      | succ t =>
          simp only [List.cons_append, List.nil_append, List.getD_cons_succ]
          exact ih (f b a) t (by simpa using ht)

theorem emaRec_length (a : ℚ) (xs : List ℚ) : (emaRec a xs).length = xs.length := by
  cases xs <;> simp [emaRec, List.length_scanl]

theorem emaRec_getD_zero (a : ℚ) (xs : List ℚ) :
    (emaRec a xs).getD 0 0 = xs.getD 0 0 := by
  cases xs with
  | nil => rfl
  | cons x tl => simp only [emaRec, List.getD_cons_zero]; exact scanl_getD_zero _ _ _ _

theorem emaRec_getD_succ (a : ℚ) (xs : List ℚ) (t : ℕ) (h : t + 1 < xs.length) :
    (emaRec a xs).getD (t + 1) 0 =
      a * xs.getD (t + 1) 0 + (1 - a) * (emaRec a xs).getD t 0 := by
  cases xs with
  | nil => simp at h
  | cons x tl =>
      have ht : t < tl.length := by simpa using h
      simp only [emaRec, List.getD_cons_succ]
      exact scanl_getD_succ _ x 0 tl 0 t ht

/-! ### Further list helpers -/

theorem filterMap_eq_map_of_some {α β : Type} {g : α → Option β} {f : α → β} :
    ∀ {l : List α}, (∀ x ∈ l, g x = some (f x)) → l.filterMap g = l.map f := by
  intro l
  induction l with
  | nil => intro _; rfl
  | cons a tl ih =>
      intro h
      rw [List.filterMap_cons, h a (by simp), List.map_cons,
        ih (fun x hx => h x (by simp [hx]))]

theorem buildDict_notMem {R : Type} :
    ∀ (rs : List (String × R)) (init : String → Option R) (s : String),
      s ∉ rs.map Prod.fst →
      rs.foldl (fun (m : String → Option R) p => Function.update m p.1 (some p.2)) init s =
        init s := by
  intro rs
  induction rs with
  | nil => intro init s _; rfl
  | cons p tl ih =>
      intro init s hs
      simp only [List.map_cons, List.mem_cons, not_or] at hs
      rw [List.foldl_cons, ih _ s hs.2, Function.update_noteq hs.1]

theorem buildDict_mem {R : Type} :
    ∀ (rs : List (String × R)) (init : String → Option R) (s : String) (r : R),
      (rs.map Prod.fst).Nodup → (s, r) ∈ rs →
      rs.foldl (fun (m : String → Option R) p => Function.update m p.1 (some p.2)) init s =
        some r := by
  intro rs
  induction rs with
  | nil => intro _ _ _ _ h; simp at h
  | cons p tl ih =>
      intro init s r hnd hm
      simp only [List.map_cons, List.nodup_cons] at hnd
      rcases List.mem_cons.mp hm with heq | htl
      · subst heq
        rw [List.foldl_cons, buildDict_notMem tl _ s hnd.1, Function.update_same]
      · exact ih _ s r hnd.2 htl

theorem emaSpan_getD_zero (span : ℕ) (xs : List ℚ) :
    (emaSpan span xs).getD 0 0 = xs.getD 0 0 :=
  emaRec_getD_zero _ _

theorem emaSpan_getD_succ (span : ℕ) (xs : List ℚ) (t : ℕ) (h : t + 1 < xs.length) :
    (emaSpan span xs).getD (t + 1) 0 =
      2 / ((span : ℚ) + 1) * xs.getD (t + 1) 0
        + (1 - 2 / ((span : ℚ) + 1)) * (emaSpan span xs).getD t 0 :=
  emaRec_getD_succ _ _ _ h

theorem macdSeries_length (xs : List ℚ) : (macdSeries xs).length = xs.length := by
  simp [macdSeries, List.length_zipWith, emaSpan, emaRec_length]

theorem getD_map {α β : Type} (f : α → β) {l : List α} {t : ℕ} (d : α) (d2 : β)
    (h : t < l.length) : (l.map f).getD t d2 = f (l.getD t d) := by
  rw [List.getD_eq_getElem _ _ (by simpa using h), List.getD_eq_getElem _ _ h, List.getElem_map]

theorem rollingMean_length (w : ℕ) (s : OSer ℚ) : (rollingMean w s).length = s.length := by
  simp [rollingMean]

theorem diffSeries_length (xs : List ℚ) : (diffSeries xs).length = xs.length := by
  simp [diffSeries]

theorem diffSeries_getD {xs : List ℚ} {t : ℕ} (ht : t < xs.length) :
    (diffSeries xs).getD t none =
      if t = 0 then none else some (xs.getD t 0 - xs.getD (t - 1) 0) := by
  unfold diffSeries
  exact getD_range_map _ _ ht

theorem gainInput_length (xs : List ℚ) : (gainInput xs).length = xs.length := by
  simp [gainInput, diffSeries_length]

theorem lossInput_length (xs : List ℚ) : (lossInput xs).length = xs.length := by
  simp [lossInput, diffSeries_length]

theorem gainInput_getD {xs : List ℚ} {t : ℕ} (ht : t < xs.length) :
    (gainInput xs).getD t none =
      some (if 0 < ((diffSeries xs).getD t none).getD 0
        then ((diffSeries xs).getD t none).getD 0 else 0) := by
  unfold gainInput
  exact getD_map _ none _ (by rwa [diffSeries_length])

theorem lossInput_getD {xs : List ℚ} {t : ℕ} (ht : t < xs.length) :
    (lossInput xs).getD t none =
      some (if ((diffSeries xs).getD t none).getD 0 < 0
        then -(((diffSeries xs).getD t none).getD 0) else 0) := by
  unfold lossInput
  exact getD_map _ none _ (by rwa [diffSeries_length])

theorem gainInput_isSome (xs : List ℚ) : ∀ x ∈ gainInput xs, x.isSome := by
  intro x hx
  simp only [gainInput, List.mem_map] at hx
  obtain ⟨d, _, rfl⟩ := hx
  rfl

theorem lossInput_isSome (xs : List ℚ) : ∀ x ∈ lossInput xs, x.isSome := by
  intro x hx
  simp only [lossInput, List.mem_map] at hx
  obtain ⟨d, _, rfl⟩ := hx
  rfl

theorem gainInput_nonneg (xs : List ℚ) :
    ∀ x ∈ gainInput xs, ∀ a : ℚ, x = some a → 0 ≤ a := by
  intro x hx a ha
  simp only [gainInput, List.mem_map] at hx
  obtain ⟨d, _, rfl⟩ := hx
  obtain rfl : (if 0 < d.getD 0 then d.getD 0 else 0) = a := by simpa using ha
  split <;> simp_all [le_of_lt]

/-- A rolling mean over nonnegative, everywhere-defined inputs whose
current entry is positive is itself positive once the window is full. -/
theorem rollingMean_pos {w t : ℕ} {s : OSer ℚ} (hw : 0 < w) (ht : t < s.length)
    (hsome : ∀ x ∈ s, x.isSome)
    (hnn : ∀ x ∈ s, ∀ a : ℚ, x = some a → 0 ≤ a)
    (hwle : w ≤ t + 1)
    (hx : ∃ a : ℚ, s.getD t none = some a ∧ 0 < a) :
    ∃ g : ℚ, (rollingMean w s).getD t none = some g ∧ 0 < g := by
  have hlen : (somes (window w t s)).length = w := by
    rw [somes_length_of_isSome (window_forall ht hsome), window_length]
    omega
  obtain ⟨a0, ha0, ha0pos⟩ := hx
  have hmem : (some a0 : Option ℚ) ∈ window w t s := by
    rw [← ha0]
    exact List.mem_map.mpr ⟨t, List.mem_range'_1.mpr ⟨by omega, by omega⟩, rfl⟩
  have ha0v : a0 ∈ somes (window w t s) := mem_somes.mpr hmem
  have hvnn : ∀ a ∈ somes (window w t s), (0 : ℚ) ≤ a := by
    intro a ha
    exact window_forall ht hnn _ (mem_somes.mp ha) a rfl
  have hsumpos : 0 < (somes (window w t s)).sum :=
    lt_of_lt_of_le ha0pos (List.single_le_sum hvnn a0 ha0v)
  refine ⟨(somes (window w t s)).sum / ((somes (window w t s)).length : ℚ), ?_, ?_⟩
  · rw [rollingMean_getD ht, if_pos hlen, listMean, if_neg (by omega)]
  · exact div_pos hsumpos (by rw [hlen]; exact_mod_cast hw)

theorem trueRange_length (bars : List PriceBar) :
    (trueRange bars).length = bars.length := by
  simp [trueRange]

theorem trueRange_isSome (bars : List PriceBar) : ∀ x ∈ trueRange bars, x.isSome := by
  intro x hx
  simp only [trueRange, List.mem_map, List.mem_range] at hx
  obtain ⟨t, _, rfl⟩ := hx
  split <;> rfl

/-! ### The claims -/

/-- C2: for every non-empty price series, MACD is EMA(span 12) minus
EMA(span 26) of the closes and the signal is EMA(span 9) of the MACD,
where each EMA follows the adjust=False recursion
`e[t] = a*x[t] + (1-a)*e[t-1]` with `a = 2/(span+1)` and is seeded with
the first input value; for a two-bar series `[p0, p1]` the span-12 EMA
at index 1 is `(2/13)*p1 + (11/13)*p0`; the surfaced `macd` and
`macd_signal` scalars are the final elements of those series. -/
theorem macd_ema_spec (bars : List PriceBar) (_hne : bars ≠ []) :
    ((emaSpan 12 (closes bars)).getD 0 0 = (closes bars).getD 0 0
      ∧ (emaSpan 26 (closes bars)).getD 0 0 = (closes bars).getD 0 0
      ∧ (signalSeries (closes bars)).getD 0 0 = (macdSeries (closes bars)).getD 0 0)
    ∧ (∀ t, t + 1 < (closes bars).length →
        (emaSpan 12 (closes bars)).getD (t + 1) 0 =
            2 / 13 * (closes bars).getD (t + 1) 0
              + (1 - 2 / 13) * (emaSpan 12 (closes bars)).getD t 0
          ∧ (emaSpan 26 (closes bars)).getD (t + 1) 0 =
            2 / 27 * (closes bars).getD (t + 1) 0
              + (1 - 2 / 27) * (emaSpan 26 (closes bars)).getD t 0
          ∧ (signalSeries (closes bars)).getD (t + 1) 0 =
            2 / 10 * (macdSeries (closes bars)).getD (t + 1) 0
              + (1 - 2 / 10) * (signalSeries (closes bars)).getD t 0)
    ∧ macdSeries (closes bars) =
        List.zipWith (fun a b => a - b) (emaSpan 12 (closes bars)) (emaSpan 26 (closes bars))
    ∧ (analyzeStock bars).macd = (macdSeries (closes bars)).getLast?
    ∧ (analyzeStock bars).macd_signal = (signalSeries (closes bars)).getLast?
    ∧ (∀ p0 p1 : ℚ, (emaSpan 12 [p0, p1]).getD 1 0 = 2 / 13 * p1 + (1 - 2 / 13) * p0) := by
  refine ⟨⟨emaSpan_getD_zero 12 _, emaSpan_getD_zero 26 _, emaSpan_getD_zero 9 _⟩,
    ?_, rfl, rfl, rfl, ?_⟩
  · intro t ht
    have hm : t + 1 < (macdSeries (closes bars)).length := by rw [macdSeries_length]; exact ht
    refine ⟨?_, ?_, ?_⟩
    · have := emaSpan_getD_succ 12 (closes bars) t ht
      norm_num at this ⊢
      exact this
    · have := emaSpan_getD_succ 26 (closes bars) t ht
      norm_num at this ⊢
      exact this
    · have := emaSpan_getD_succ 9 (macdSeries (closes bars)) t hm
      norm_num at this ⊢
      exact this
  · intro p0 p1
    have := emaSpan_getD_succ 12 [p0, p1] 0 (by simp)
    rw [emaSpan_getD_zero 12 [p0, p1]] at this
    norm_num at this ⊢
    exact this

/-- C2 witness at a concrete two-bar series. -/
theorem macd_ema_spec_witness :
    ([⟨1, 1, 3⟩, ⟨1, 1, 5⟩] : List PriceBar) ≠ []
      ∧ (emaSpan 12 (closes [⟨1, 1, 3⟩, ⟨1, 1, 5⟩])).getD 1 0
          = 2 / 13 * 5 + (1 - 2 / 13) * 3 :=
  ⟨by decide, (macd_ema_spec [⟨1, 1, 3⟩, ⟨1, 1, 5⟩] (by decide)).2.2.2.2.2 3 5⟩

/-- C10: for every non-empty price series, the True Range at the first
bar is `high[0] - low[0]` (the undefined previous-close terms are
skipped, not propagated), and the 14-period rolling-mean ATR series is
defined exactly from bar index 13 onward. -/
theorem atr_first_bar_spec (bars : List PriceBar) (hne : bars ≠ []) :
    (trueRange bars).getD 0 none
        = some ((bars.getD 0 default).high - (bars.getD 0 default).low)
    ∧ ∀ t, t < bars.length → (((atrSeries bars).getD t none).isSome ↔ 13 ≤ t) := by
  have hlen : 0 < bars.length := List.length_pos.mpr hne
  constructor
  · unfold trueRange
    rw [getD_range_map _ _ hlen]
    simp
  · intro t ht
    have ht' : t < (trueRange bars).length := by rwa [trueRange_length]
    have h14 := rollingMean_isSome (w := 14) (by norm_num) ht' (trueRange_isSome bars)
    have harith : (13 ≤ t) ↔ (14 ≤ t + 1) := by omega
    rw [harith]
    exact h14

/-- C10 witness at a concrete 14-bar series. -/
theorem atr_first_bar_spec_witness :
    (List.replicate 14 (⟨3, 1, 2⟩ : PriceBar) ≠ [])
      ∧ ((trueRange (List.replicate 14 ⟨3, 1, 2⟩)).getD 0 none = some ((3 : ℚ) - 1)
          ∧ ∀ t, t < (List.replicate 14 (⟨3, 1, 2⟩ : PriceBar)).length →
              (((atrSeries (List.replicate 14 ⟨3, 1, 2⟩)).getD t none).isSome ↔ 13 ≤ t)) :=
  ⟨by decide, atr_first_bar_spec (List.replicate 14 ⟨3, 1, 2⟩) (by decide)⟩

/-- C3: RSI at each index is `100 - 100/(1 + gain/loss)` where `gain`
and `loss` are the 14-period rolling means of the positive deltas and
of the absolute negative deltas, opposite-direction deltas contributing
0 (so both means are defined exactly from index 13 onward, rather than
being undefined when a window mixes directions); consequently, for a
strictly increasing close series, from index 13 onward the loss mean is
0 and the RSI evaluates to 100. -/
theorem rsi_spec (bars : List PriceBar) :
    (∀ t, t < (closes bars).length → ∀ g l : ℚ,
        (gains (closes bars)).getD t none = some g →
        (losses (closes bars)).getD t none = some l → l ≠ 0 →
        (rsiSeries (closes bars)).getD t none = some (100 - 100 / (1 + g / l)))
    ∧ (∀ t, t < (closes bars).length →
        ((((gains (closes bars)).getD t none).isSome ↔ 13 ≤ t)
          ∧ (((losses (closes bars)).getD t none).isSome ↔ 13 ≤ t)))
    ∧ ((∀ i, i + 1 < (closes bars).length →
          (closes bars).getD i 0 < (closes bars).getD (i + 1) 0) →
        ∀ t, t < (closes bars).length → 13 ≤ t →
          (rsiSeries (closes bars)).getD t none = some 100) := by
  have hglen : (gains (closes bars)).length = (closes bars).length := by
    rw [gains, rollingMean_length, gainInput_length]
  have hllen : (losses (closes bars)).length = (closes bars).length := by
    rw [losses, rollingMean_length, lossInput_length]
  refine ⟨?_, ?_, ?_⟩
  · intro t ht g l hg hl hl0
    have := getD_zipWith
      (fun g l : Option ℚ =>
        match g, l with
        | some g, some l =>
            if l = 0 then (if g = 0 then none else some 100)
            else some (100 - 100 / (1 + g / l))
        | _, _ => none)
      (gains (closes bars)) (losses (closes bars))
      (t := t) none none none (by omega) (by omega)
    rw [rsiSeries, this, hg, hl]
    simp [hl0]
  · intro t ht
    have h14 : (13 ≤ t) ↔ (14 ≤ t + 1) := by omega
    constructor
    · rw [h14, gains]
      exact rollingMean_isSome (by norm_num) (by rwa [gainInput_length]) (gainInput_isSome _)
    · rw [h14, losses]
      exact rollingMean_isSome (by norm_num) (by rwa [lossInput_length]) (lossInput_isSome _)
  · intro hmono t ht h13
    -- every loss input is exactly 0 for a strictly increasing series
    have hloss0 : ∀ x ∈ lossInput (closes bars), x = some 0 := by
      intro x hx
      simp only [lossInput, List.mem_map] at hx
      obtain ⟨d, hd, rfl⟩ := hx
      simp only [diffSeries, List.mem_map, List.mem_range] at hd
      obtain ⟨i, hi, rfl⟩ := hd
      by_cases hi0 : i = 0
      · simp [hi0]
      · have hδ : 0 < (closes bars).getD i 0 - (closes bars).getD (i - 1) 0 := by
          have := hmono (i - 1) (by omega)
          have hii : i - 1 + 1 = i := by omega
          rw [hii] at this
          linarith
        rw [if_neg hi0]
        simp only [Option.getD_some]
        rw [if_neg (by linarith)]
    have hlosses : (losses (closes bars)).getD t none = some 0 := by
      rw [losses, rollingMean_const (by norm_num) (by rwa [lossInput_length]) hloss0,
        if_pos (by omega)]
    -- the gain mean is strictly positive: the window's last delta is positive
    have hδt : 0 < (closes bars).getD t 0 - (closes bars).getD (t - 1) 0 := by
      have := hmono (t - 1) (by omega)
      have htt : t - 1 + 1 = t := by omega
      rw [htt] at this
      linarith
    have hgt : (gainInput (closes bars)).getD t none =
        some ((closes bars).getD t 0 - (closes bars).getD (t - 1) 0) := by
      rw [gainInput_getD ht, diffSeries_getD ht, if_neg (by omega : ¬ t = 0)]
      simp only [Option.getD_some]
      rw [if_pos hδt]
    obtain ⟨g, hg, hgpos⟩ := rollingMean_pos (w := 14) (by norm_num)
      (by rwa [gainInput_length]) (gainInput_isSome _) (gainInput_nonneg _)
      (by omega) ⟨_, hgt, hδt⟩
    have := getD_zipWith
      (fun g l : Option ℚ =>
        match g, l with
        | some g, some l =>
            if l = 0 then (if g = 0 then none else some 100)
            else some (100 - 100 / (1 + g / l))
        | _, _ => none)
      (gains (closes bars)) (losses (closes bars))
      (t := t) none none none (by omega) (by omega)
    have hg' : (gains (closes bars)).getD t none = some g := hg
    rw [rsiSeries, this, hg', hlosses]
    simp [ne_of_gt hgpos]

/-- A concrete strictly increasing 14-bar series for the witnesses. -/
def barsUp : List PriceBar :=
  [⟨1, 1, 1⟩, ⟨1, 1, 2⟩, ⟨1, 1, 3⟩, ⟨1, 1, 4⟩, ⟨1, 1, 5⟩, ⟨1, 1, 6⟩, ⟨1, 1, 7⟩,
   ⟨1, 1, 8⟩, ⟨1, 1, 9⟩, ⟨1, 1, 10⟩, ⟨1, 1, 11⟩, ⟨1, 1, 12⟩, ⟨1, 1, 13⟩, ⟨1, 1, 14⟩]

/-- C3 witness at a concrete strictly increasing 14-bar series. -/
theorem rsi_spec_witness :
    (rsiSeries (closes barsUp)).getD 13 none = some 100 := by
  refine (rsi_spec barsUp).2.2 ?_ 13 (by decide) (by decide)
  intro i hi
  have hlen : (closes barsUp).length = 14 := by decide
  rw [hlen] at hi
  have hi13 : i < 13 := by omega
  interval_cases i <;> decide

theorem somes_pctChange {xs : List ℚ} (hc : ∀ c ∈ xs, c ≠ 0) :
    somes (pctChange xs) =
      (List.range (xs.length - 1)).map
        (fun t => (xs.getD (t + 1) 0 - xs.getD t 0) / xs.getD t 0) := by
  unfold somes pctChange
  rw [List.filterMap_map]
  cases hn : xs.length with
  | zero => simp
  | succ m =>
      rw [List.range_succ_eq_map, List.filterMap_cons]
      simp only [Function.comp, if_pos rfl, Nat.succ_sub_one]
      rw [List.filterMap_map]
      refine filterMap_eq_map_of_some ?_
      intro t htm
      have ht : t < xs.length := by
        rw [hn]
        exact Nat.lt_succ_of_lt (List.mem_range.mp htm)
      have hne : xs.getD t 0 ≠ 0 := by
        rw [List.getD_eq_getElem _ _ ht]
        exact hc _ (List.getElem_mem ht)
      simp only [Function.comp, Nat.succ_ne_zero, if_false, Nat.succ_sub_one]
      rw [if_neg hne]
      rfl

/-- C1: for every price series with at least 2 bars of nonzero closes,
the Sharpe ratio is (mean of the daily returns) / (sample std, ddof 1,
of the daily returns) * sqrt(N) with N the number of bars of the series
(not a fixed constant such as 252) and risk-free rate 0; the
daily-return sequence has N-1 entries and its mean divides by N-1; a
zero (or undefined) standard deviation yields an undefined Sharpe ratio
that is surfaced as-is. -/
theorem sharpe_spec (bars : List PriceBar) (h2 : 2 ≤ bars.length)
    (hc : ∀ b ∈ bars, b.close ≠ 0) :
    (somes (dailyReturn bars)).length = bars.length - 1
    ∧ seriesMean (dailyReturn bars)
        = some ((somes (dailyReturn bars)).sum / ((bars.length : ℚ) - 1))
    ∧ (∀ m v : ℚ, seriesMean (dailyReturn bars) = some m →
        seriesVar (dailyReturn bars) = some v → v ≠ 0 →
        (analyzeStock bars).sharpe
          = some ((m : ℝ) / Real.sqrt (v : ℝ) * Real.sqrt (bars.length : ℝ)))
    ∧ (seriesVar (dailyReturn bars) = some 0 → (analyzeStock bars).sharpe = none)
    ∧ (seriesVar (dailyReturn bars) = none → (analyzeStock bars).sharpe = none) := by
  have hcc : ∀ c ∈ closes bars, c ≠ 0 := by
    intro c hcm
    obtain ⟨b, hb, rfl⟩ := List.mem_map.mp hcm
    exact hc b hb
  have hclen : (closes bars).length = bars.length := by simp [closes]
  have hrlen : (somes (dailyReturn bars)).length = bars.length - 1 := by
    rw [dailyReturn, somes_pctChange hcc]
    simp [hclen]
  have hsharpe : (analyzeStock bars).sharpe = sharpeVal bars := rfl
  refine ⟨hrlen, ?_, ?_, ?_, ?_⟩
  · rw [seriesMean, listMean, if_neg (by omega), hrlen, Nat.cast_sub (by omega)]
    norm_num
  · intro m v hm hv hv0
    rw [hsharpe, sharpeVal, hm, hv]
    simp [hv0]
  · intro hv
    rw [hsharpe, sharpeVal, hv]
    cases seriesMean (dailyReturn bars) <;> simp
  · intro hv
    rw [hsharpe, sharpeVal, hv]
    cases seriesMean (dailyReturn bars) <;> simp

/-- C1 witness at a concrete three-bar series. -/
theorem sharpe_spec_witness :
    (somes (dailyReturn [⟨1, 1, 1⟩, ⟨1, 1, 2⟩, ⟨1, 1, 6⟩])).length
      = ([(⟨1, 1, 1⟩ : PriceBar), ⟨1, 1, 2⟩, ⟨1, 1, 6⟩]).length - 1 :=
  (sharpe_spec [⟨1, 1, 1⟩, ⟨1, 1, 2⟩, ⟨1, 1, 6⟩] (by decide) (by decide)).1

theorem getD_replicate {α : Type} {n i : ℕ} (c d : α) (h : i < n) :
    (List.replicate n c).getD i d = c := by
  rw [List.getD_eq_getElem _ _ (by simpa using h)]
  exact List.getElem_replicate ..

theorem pctChange_getD {xs : List ℚ} {t : ℕ} (ht : t < xs.length) :
    (pctChange xs).getD t none =
      if t = 0 then none
      else if xs.getD (t - 1) 0 = 0 then none
      else some ((xs.getD t 0 - xs.getD (t - 1) 0) / xs.getD (t - 1) 0) := by
  unfold pctChange
  exact getD_range_map _ _ ht

theorem rocSeries_getD {xs : List ℚ} {t : ℕ} (ht : t < xs.length) :
    (rocSeries xs).getD t none =
      if t < 12 then none
      else if xs.getD (t - 12) 0 = 0 then none
      else some ((xs.getD t 0 - xs.getD (t - 12) 0) / xs.getD (t - 12) 0 * 100) := by
  unfold rocSeries
  exact getD_range_map _ _ ht

theorem rollingVar_length (w : ℕ) (s : OSer ℚ) : (rollingVar w s).length = s.length := by
  simp [rollingVar]

/-- C4 counterexample: on the all-zero constant-price series of 20 bars
(to which the claim applies) the Daily Return is undefined (0/0 is NaN
in floats) at index 1 rather than 0, and the volatility input variance
is undefined rather than 0. -/
theorem constant_series_cex :
    (dailyReturn (List.replicate 20 (PriceBar.mk 0 0 0))).getD 1 none ≠ some 0
      ∧ seriesVar (dailyReturn (List.replicate 20 (PriceBar.mk 0 0 0))) = none := by
  decide

/-- C4 (amended): for every constant-price series whose price `c` is
nonzero and which fills the 20-bar window, the Daily Return is
undefined at index 0 and 0 at every later index, the volatility is 0,
the Sharpe ratio is undefined (0/0), the Bollinger bands both equal `c`
(hence `BB_Gap` is 0) exactly from index 19 onward and the average gap
is 0, and the ROC is 0 at exactly the defined indices (from 12 on). -/
theorem constant_series_spec (bars : List PriceBar) (c : ℚ) (hc : c ≠ 0)
    (hn : 20 ≤ bars.length) (hconst : ∀ b ∈ bars, b.close = c) :
    (dailyReturn bars).getD 0 none = none
    ∧ (∀ t, 0 < t → t < bars.length → (dailyReturn bars).getD t none = some 0)
    ∧ (analyzeStock bars).volatility = some 0
    ∧ (analyzeStock bars).sharpe = none
    ∧ (∀ t, t < bars.length →
        (upperBand (closes bars)).getD t none = (if 19 ≤ t then some (c : ℝ) else none)
        ∧ (lowerBand (closes bars)).getD t none = (if 19 ≤ t then some (c : ℝ) else none)
        ∧ (bbGap (closes bars)).getD t none = (if 19 ≤ t then some (0 : ℝ) else none))
    ∧ (analyzeStock bars).avg_bb_gap = some 0
    ∧ (∀ t, t < bars.length →
        (rocSeries (closes bars)).getD t none = (if 12 ≤ t then some (0 : ℚ) else none)) := by
  have hlen : (closes bars).length = bars.length := by simp [closes]
  have hxs : closes bars = List.replicate bars.length c := by
    have hall : ∀ x ∈ closes bars, x = c := by
      intro x hx
      obtain ⟨b, hb, rfl⟩ := List.mem_map.mp hx
      exact hconst b hb
    have h2 := List.eq_replicate_of_mem hall
    rwa [hlen] at h2
  -- Daily Return
  have hdr0 : (dailyReturn bars).getD 0 none = none := by
    rw [dailyReturn, pctChange_getD (by omega)]
    simp
  have hdrt : ∀ t, 0 < t → t < bars.length → (dailyReturn bars).getD t none = some 0 := by
    intro t ht0 htn
    rw [dailyReturn, pctChange_getD (by omega), if_neg (by omega), hxs,
      getD_replicate c 0 (by omega : t - 1 < bars.length),
      getD_replicate c 0 (by omega : t < bars.length), if_neg hc]
    simp
  -- volatility and Sharpe
  have hsomes : somes (dailyReturn bars) = List.replicate (bars.length - 1) 0 := by
    have hcc : ∀ x ∈ closes bars, x ≠ 0 := by
      intro x hx
      rw [hxs] at hx
      rw [List.eq_of_mem_replicate hx]
      exact hc
    rw [dailyReturn, somes_pctChange hcc, hlen]
    have hzero : ∀ t ∈ List.range (bars.length - 1),
        ((closes bars).getD (t + 1) 0 - (closes bars).getD t 0) / (closes bars).getD t 0
          = (0 : ℚ) := by
      intro t htm
      have htb : t < bars.length - 1 := List.mem_range.mp htm
      rw [hxs, getD_replicate c 0 (by omega : t + 1 < bars.length),
        getD_replicate c 0 (by omega : t < bars.length)]
      simp
    rw [List.map_congr_left (g := fun _ => (0 : ℚ)) hzero, List.map_const']
    simp
  have hvar : seriesVar (dailyReturn bars) = some 0 := by
    rw [seriesVar, hsomes]
    exact sampleVar_replicate 0 (by omega)
  have hmean : seriesMean (dailyReturn bars) = some 0 := by
    rw [seriesMean, hsomes]
    exact listMean_replicate 0 (by omega)
  have hvol : (analyzeStock bars).volatility = some 0 := by
    show volatilityVal bars = some 0
    rw [volatilityVal, hvar]
    simp
  have hshp : (analyzeStock bars).sharpe = none := by
    show sharpeVal bars = none
    rw [sharpeVal, hmean, hvar]
    simp
  -- Bollinger bands
  have hmap : (closes bars).map some = List.replicate bars.length (some c) := by
    rw [hxs, List.map_replicate]
  have hallc : ∀ x ∈ (closes bars).map some, x = some c := by
    rw [hmap]
    intro x hx
    exact List.eq_of_mem_replicate hx
  have hml : ((closes bars).map some).length = bars.length := by rw [List.length_map, hlen]
  have hsl : (sma20 (closes bars)).length = bars.length := by
    rw [sma20, rollingMean_length, hml]
  have hvl : (var20 (closes bars)).length = bars.length := by
    rw [var20, rollingVar_length, hml]
  have hsma : ∀ t, t < bars.length →
      (sma20 (closes bars)).getD t none = if 20 ≤ t + 1 then some c else none := by
    intro t ht
    rw [sma20]
    exact rollingMean_const (by norm_num) (by omega) hallc
  have hvra : ∀ t, t < bars.length →
      (var20 (closes bars)).getD t none = if 20 ≤ t + 1 then some 0 else none := by
    intro t ht
    rw [var20]
    exact rollingVar_const (by norm_num) (by omega) hallc
  have hul : (upperBand (closes bars)).length = bars.length := by
    rw [upperBand, List.length_zipWith, hsl, hvl, min_self]
  have hll : (lowerBand (closes bars)).length = bars.length := by
    rw [lowerBand, List.length_zipWith, hsl, hvl, min_self]
  have hband : ∀ t, t < bars.length →
      (upperBand (closes bars)).getD t none = (if 19 ≤ t then some (c : ℝ) else none)
      ∧ (lowerBand (closes bars)).getD t none = (if 19 ≤ t then some (c : ℝ) else none)
      ∧ (bbGap (closes bars)).getD t none = (if 19 ≤ t then some (0 : ℝ) else none) := by
    intro t ht
    have h1 : t < (sma20 (closes bars)).length := by omega
    have h2 : t < (var20 (closes bars)).length := by omega
    have hup : (upperBand (closes bars)).getD t none
        = (if 19 ≤ t then some (c : ℝ) else none) := by
      rw [upperBand, getD_zipWith _ _ _ none none none h1 h2, hsma t ht, hvra t ht]
      by_cases h19 : 19 ≤ t
      · rw [if_pos (by omega : 20 ≤ t + 1), if_pos (by omega : 20 ≤ t + 1), if_pos h19]
        norm_num
      · rw [if_neg (by omega : ¬ 20 ≤ t + 1), if_neg (by omega : ¬ 20 ≤ t + 1), if_neg h19]
    have hlo : (lowerBand (closes bars)).getD t none
        = (if 19 ≤ t then some (c : ℝ) else none) := by
      rw [lowerBand, getD_zipWith _ _ _ none none none h1 h2, hsma t ht, hvra t ht]
      by_cases h19 : 19 ≤ t
      · rw [if_pos (by omega : 20 ≤ t + 1), if_pos (by omega : 20 ≤ t + 1), if_pos h19]
        norm_num
      · rw [if_neg (by omega : ¬ 20 ≤ t + 1), if_neg (by omega : ¬ 20 ≤ t + 1), if_neg h19]
    have hgap : (bbGap (closes bars)).getD t none
        = (if 19 ≤ t then some (0 : ℝ) else none) := by
      have hu1 : t < (upperBand (closes bars)).length := by omega
      have hl1 : t < (lowerBand (closes bars)).length := by omega
      rw [bbGap, getD_zipWith _ _ _ none none none hu1 hl1, hup, hlo]
      by_cases h19 : 19 ≤ t
      · rw [if_pos h19, if_pos h19]
        norm_num
      · rw [if_neg h19, if_neg h19]
    exact ⟨hup, hlo, hgap⟩
  -- average Bollinger gap
  have hgl : (bbGap (closes bars)).length = bars.length := by
    rw [bbGap, List.length_zipWith, hul, hll, min_self]
  have hgap_mem : ∀ x ∈ bbGap (closes bars), x = none ∨ x = some (0 : ℝ) := by
    intro x hx
    obtain ⟨i, hi, rfl⟩ := List.mem_iff_getElem.mp hx
    have hib : i < bars.length := by omega
    rw [← List.getD_eq_getElem _ none hi, (hband i hib).2.2]
    by_cases h19 : 19 ≤ i
    · right; rw [if_pos h19]
    · left; rw [if_neg h19]
  have h19mem : (some (0 : ℝ)) ∈ bbGap (closes bars) := by
    have h19l : 19 < (bbGap (closes bars)).length := by omega
    have h19 : (bbGap (closes bars)).getD 19 none = some 0 := by
      rw [(hband 19 (by omega)).2.2]
      norm_num
    rw [List.getD_eq_getElem _ _ h19l] at h19
    rw [← h19]
    exact List.getElem_mem h19l
  have havg : (analyzeStock bars).avg_bb_gap = some 0 := by
    show seriesMean (bbGap (closes bars)) = some 0
    have hz : ∀ a ∈ somes (bbGap (closes bars)), a = (0 : ℝ) := by
      intro a ha
      rcases hgap_mem _ (mem_somes.mp ha) with h | h
      · exact absurd h (by simp)
      · exact Option.some_inj.mp h
    have hne : somes (bbGap (closes bars)) ≠ [] := by
      intro hnil
      have hmem0 := mem_somes.mpr h19mem
      rw [hnil] at hmem0
      simp at hmem0
    rw [seriesMean, listMean,
      if_neg (fun h0 => hne (List.length_eq_zero.mp h0)), List.sum_eq_zero hz]
    simp
  -- ROC
  have hroc : ∀ t, t < bars.length →
      (rocSeries (closes bars)).getD t none = (if 12 ≤ t then some (0 : ℚ) else none) := by
    intro t ht
    rw [rocSeries_getD (by omega)]
    by_cases h12 : 12 ≤ t
    · rw [if_neg (by omega), hxs,
        getD_replicate c 0 (by omega : t - 12 < bars.length),
        getD_replicate c 0 (by omega : t < bars.length), if_neg hc, if_pos h12]
      simp
    · rw [if_pos (by omega), if_neg h12]
  exact ⟨hdr0, hdrt, hvol, hshp, hband, havg, hroc⟩

/-- C4 witness at a concrete constant 20-bar series with price 5. -/
theorem constant_series_spec_witness :
    (dailyReturn (List.replicate 20 (PriceBar.mk 1 1 5))).getD 0 none = none
      ∧ (dailyReturn (List.replicate 20 (PriceBar.mk 1 1 5))).getD 1 none = some 0 :=
  ⟨(constant_series_spec (List.replicate 20 (PriceBar.mk 1 1 5)) 5 (by decide) (by decide)
      (by decide)).1,
   (constant_series_spec (List.replicate 20 (PriceBar.mk 1 1 5)) 5 (by decide) (by decide)
      (by decide)).2.1 1 (by decide) (by decide)⟩

/-- C5: the claim (and the spec's stated design intent) is that
`analyze_stock` consumes the price series read-only; the code instead
assigns seven indicator columns to the input DataFrame, so the frame
after analysis differs from the fetched input frame. -/
theorem analyze_mutates_input_columns : mutatedColumns inputColumns ≠ inputColumns := by
  decide

/-- C6 counterexample: a config that omits `start_date` (stocks and
report_format valid, end_date present) is rejected by `validate_config`
with a missing-key error, contradicting the claim that omitting the
dates does not fail validation. -/
theorem config_missing_start_cex :
    validateConfig
        ⟨some (CVal.strList ["AAPL"]), none, some (CVal.str "2024-01-01"),
          some (CVal.str "txt")⟩
      = Except.error "Missing required configuration key: start_date" := by
  rfl

/-- The end-date field after the defaulting block. -/
theorem applyDateDefaults_end (c : RawConfig) (t y : String) :
    (applyDateDefaults c t y).end_date =
      if isFalsy c.end_date = true then some (CVal.str t) else c.end_date := by
  rcases c with ⟨st, sd, ed, rf⟩
  by_cases h1 : isFalsy ed = true <;> by_cases h2 : isFalsy sd = true <;>
    simp [applyDateDefaults, h1, h2]

/-- The start-date field after the defaulting block. -/
theorem applyDateDefaults_start (c : RawConfig) (t y : String) :
    (applyDateDefaults c t y).start_date =
      if isFalsy c.start_date = true then some (CVal.str y) else c.start_date := by
  rcases c with ⟨st, sd, ed, rf⟩
  by_cases h1 : isFalsy ed = true <;> by_cases h2 : isFalsy sd = true <;>
    simp [applyDateDefaults, h1, h2]

/-- C6 (amended): `validate_config` accepts a config exactly when all
four keys are present, `stocks` is a non-empty list, and
`report_format` is `pdf` or `txt` (so a missing `start_date`/`end_date`
key is an error, while an empty value passes); after validation an
empty (falsy) `end_date` defaults to today's date and an empty
`start_date` to one year prior, non-empty values being preserved. -/
theorem config_spec (c : RawConfig) (today oneYearPrior : String) :
    (validateConfig c = Except.ok () ↔
      (c.stocks ≠ none ∧ c.start_date ≠ none ∧ c.end_date ≠ none ∧ c.report_format ≠ none
        ∧ (∃ l, c.stocks = some (CVal.strList l) ∧ l ≠ [])
        ∧ (c.report_format = some (CVal.str "pdf")
            ∨ c.report_format = some (CVal.str "txt"))))
    ∧ (isFalsy c.end_date = true →
        (applyDateDefaults c today oneYearPrior).end_date = some (CVal.str today))
    ∧ (isFalsy c.start_date = true →
        (applyDateDefaults c today oneYearPrior).start_date = some (CVal.str oneYearPrior))
    ∧ (isFalsy c.end_date = false →
        (applyDateDefaults c today oneYearPrior).end_date = c.end_date)
    ∧ (isFalsy c.start_date = false →
        (applyDateDefaults c today oneYearPrior).start_date = c.start_date) := by
  rcases c with ⟨st, sd, ed, rf⟩
  refine ⟨?_, ?_, ?_, ?_, ?_⟩
  · rcases st with _ | v
    · simp [validateConfig]
    · rcases sd with _ | sdv
      · simp [validateConfig]
      · rcases ed with _ | edv
        · simp [validateConfig]
        · rcases rf with _ | rfv
          · simp [validateConfig]
          · cases v with
            | str s => simp [validateConfig]
            | nullv => simp [validateConfig]
            | strList l =>
                by_cases hl : l = []
                · simp [validateConfig, hl]
                · by_cases hrf : (some rfv = some (CVal.str "pdf")
                      ∨ some rfv = some (CVal.str "txt"))
                  · rcases hrf with h | h <;> rw [Option.some_inj] at h <;> subst h <;>
                      simp [validateConfig, hl]
                  · rw [not_or] at hrf
                    obtain ⟨h1, h2⟩ := hrf
                    have h1' : rfv ≠ CVal.str "pdf" := fun hh => h1 (by rw [hh])
                    have h2' : rfv ≠ CVal.str "txt" := fun hh => h2 (by rw [hh])
                    simp [validateConfig, hl, h1', h2']
  · intro hf
    rw [applyDateDefaults_end, if_pos hf]
  · intro hf
    rw [applyDateDefaults_start, if_pos hf]
  · intro hf
    rw [applyDateDefaults_end, if_neg (by simp [hf])]
  · intro hf
    rw [applyDateDefaults_start, if_neg (by simp [hf])]

/-- C6 witness: a config whose date values are present but empty passes
validation and is defaulted. -/
theorem config_spec_witness :
    validateConfig
        ⟨some (CVal.strList ["AAPL"]), some (CVal.str ""), some (CVal.str ""),
          some (CVal.str "pdf")⟩
      = Except.ok ()
    ∧ (applyDateDefaults
        ⟨some (CVal.strList ["AAPL"]), some (CVal.str ""), some (CVal.str ""),
          some (CVal.str "pdf")⟩ "2026-10-12" "2025-10-12").end_date
      = some (CVal.str "2026-10-12") :=
  ⟨(config_spec _ "2026-10-12" "2025-10-12").1.mpr
      ⟨by simp, by simp, by simp, by simp, ⟨["AAPL"], rfl, by simp⟩, Or.inl rfl⟩,
   (config_spec _ "2026-10-12" "2025-10-12").2.1 rfl⟩

/-- C7: `collect_evidence` isolates per-ticker faults: the run aborts
exactly when every fetch fails; an `ok` result contains exactly the
pairs of tickers whose fetch succeeded with their data; in particular
with one failing ticker out of three the result holds exactly the
other two. -/
theorem collect_evidence_spec {τ : Type} (fetch : String → Option τ) (stocks : List String) :
    ((∃ e, collectEvidence fetch stocks = Except.error e) ↔ ∀ s ∈ stocks, fetch s = none)
    ∧ (∀ l, collectEvidence fetch stocks = Except.ok l →
        ∀ s d, ((s, d) ∈ l ↔ (s ∈ stocks ∧ fetch s = some d)))
    ∧ (∀ a b q da dq, fetch a = some da → fetch b = none → fetch q = some dq →
        collectEvidence fetch [a, b, q] = Except.ok [(a, da), (q, dq)]) := by
  have hL : ∀ s d, ((s, d) ∈ stocks.filterMap (fun s => (fetch s).map (fun d => (s, d))) ↔
      (s ∈ stocks ∧ fetch s = some d)) := by
    intro s d
    rw [List.mem_filterMap]
    constructor
    · rintro ⟨a, ha, hfa⟩
      rw [Option.map_eq_some'] at hfa
      obtain ⟨x, hx, hpair⟩ := hfa
      obtain ⟨rfl, rfl⟩ := Prod.mk.injEq .. ▸ hpair
      exact ⟨ha, hx⟩
    · rintro ⟨hs, hd⟩
      exact ⟨s, hs, by rw [hd]; rfl⟩
  have hempty : (stocks.filterMap (fun s => (fetch s).map (fun d => (s, d)))).isEmpty = true
      ↔ ∀ s ∈ stocks, fetch s = none := by
    rw [List.isEmpty_iff, List.filterMap_eq_nil_iff]
    constructor
    · intro h s hs
      have := h s hs
      simpa [Option.map_eq_none'] using this
    · intro h s hs
      rw [h s hs]
      rfl
  refine ⟨?_, ?_, ?_⟩
  · rw [← hempty]
    constructor
    · rintro ⟨e, he⟩
      by_cases h : (stocks.filterMap (fun s => (fetch s).map (fun d => (s, d)))).isEmpty = true
      · exact h
      · simp only [collectEvidence, if_neg h] at he
        exact Except.noConfusion he
    · intro h
      exact ⟨"No data could be retrieved for any of the stocks.",
        by simp only [collectEvidence, if_pos h]⟩
  · intro l hok s d
    simp only [collectEvidence] at hok
    split_ifs at hok with h
    obtain rfl : stocks.filterMap (fun s => (fetch s).map (fun d => (s, d))) = l :=
      Except.ok.inj hok
    exact hL s d
  · intro a b q da dq h1 h2 h3
    simp [collectEvidence, List.filterMap_cons, h1, h2, h3]

/-- C7 witness: one of three tickers fails, the other two survive. -/
theorem collect_evidence_spec_witness :
    collectEvidence
        (fun s => if s = "A" then some 1 else if s = "C" then some 2 else none)
        ["A", "B", "C"]
      = Except.ok [("A", 1), ("C", 2)] :=
  (collect_evidence_spec
      (fun s => if s = "A" then some 1 else if s = "C" then some 2 else none)
      ["A", "B", "C"]).2.2 "A" "B" "C" 1 2 (by decide) (by decide) (by decide)

/-- C8: `analyze_clues` produces a mapping whose keys are exactly the
evidence's tickers, each bound to `analyze_stock` of that ticker's
data, and the keyed merge of per-worker results is order-independent:
permuting the result list yields the same mapping. -/
theorem analyze_clues_spec (evidence : List (String × List PriceBar))
    (hnd : (evidence.map Prod.fst).Nodup) :
    (∀ s d, (s, d) ∈ evidence → analyzeClues evidence s = some (analyzeStock d))
    ∧ (∀ s, s ∉ evidence.map Prod.fst → analyzeClues evidence s = none)
    ∧ (∀ rs rt : List (String × IndicatorResult),
        rs.Perm rt → (rs.map Prod.fst).Nodup → buildDict rs = buildDict rt) := by
  refine ⟨?_, ?_, ?_⟩
  · intro s d hm
    have hkeys : ((evidence.map (fun p => (p.1, analyzeStock p.2))).map Prod.fst).Nodup := by
      rw [List.map_map]
      exact hnd
    exact buildDict_mem _ _ s (analyzeStock d) hkeys (List.mem_map.mpr ⟨(s, d), hm, rfl⟩)
  · intro s hs
    refine buildDict_notMem _ _ s ?_
    rw [List.map_map]
    exact hs
  · intro rs rt hperm hnd'
    funext s
    have hndt : (rt.map Prod.fst).Nodup := ((hperm.map Prod.fst).nodup_iff).mp hnd'
    by_cases hmem : s ∈ rs.map Prod.fst
    · obtain ⟨p, hp, rfl⟩ := List.mem_map.mp hmem
      have hp1 : (p.1, p.2) ∈ rs := by rw [Prod.mk.eta]; exact hp
      have hp2 : (p.1, p.2) ∈ rt := by rw [Prod.mk.eta]; exact hperm.mem_iff.mp hp
      exact (buildDict_mem rs _ p.1 p.2 hnd' hp1).trans
        (buildDict_mem rt _ p.1 p.2 hndt hp2).symm
    · have hmemt : s ∉ rt.map Prod.fst := fun h => hmem ((hperm.map Prod.fst).mem_iff.mpr h)
      have h1 := buildDict_notMem rs (fun _ => none) s hmem
      have h2 := buildDict_notMem rt (fun _ => none) s hmemt
      exact h1.trans h2.symm

/-- C8 witness at a one-ticker evidence set. -/
theorem analyze_clues_spec_witness :
    analyzeClues [("A", [(⟨1, 1, 1⟩ : PriceBar)])] "A"
      = some (analyzeStock [(⟨1, 1, 1⟩ : PriceBar)]) :=
  (analyze_clues_spec [("A", [⟨1, 1, 1⟩])] (by decide)).1 "A" [⟨1, 1, 1⟩] (by simp)

/-- C9 counterexample: for a one-ticker AnalysisSet in PDF format the
returned `temp_files` list is empty, not the (non-empty) list of
per-ticker intermediate PDFs and chart images — those are deleted by
the compiler itself before it returns. -/
theorem report_temp_files_cex :
    (compileCaseFile ["AAPL"] "pdf"
        = Except.ok ⟨"financial_case_file_complete.pdf", []⟩)
      ∧ pdfCleanupArg ["AAPL"] ≠ [] := by
  constructor
  · rfl
  · decide

/-- C9 (amended): `compile_case_file` returns the primary output path
together with an EMPTY temp-file list for both supported formats (the
caller's deletion loop has nothing to do): in the PDF case the
intermediate per-ticker PDFs and chart images are passed to the
compiler's own internal cleanup before returning; an unsupported
format is a hard failure. -/
theorem report_outputs_spec (tickers : List String) (fmt : String) :
    (fmt = "pdf" →
      compileCaseFile tickers fmt = Except.ok ⟨"financial_case_file_complete.pdf", []⟩
      ∧ ∀ s ∈ tickers,
          ("financial_case_file_" ++ s ++ ".pdf") ∈ pdfCleanupArg tickers
          ∧ (s ++ "_price_bb_rsi_chart.png") ∈ pdfCleanupArg tickers
          ∧ (s ++ "_macd_chart.png") ∈ pdfCleanupArg tickers)
    ∧ (fmt = "txt" →
        compileCaseFile tickers fmt = Except.ok ⟨"financial_case_file.txt", []⟩)
    ∧ (fmt ≠ "pdf" → fmt ≠ "txt" →
        compileCaseFile tickers fmt
          = Except.error ("Unsupported report format: " ++ fmt)) := by
  refine ⟨?_, ?_, ?_⟩
  · intro hf
    subst hf
    refine ⟨rfl, ?_⟩
    intro s hs
    refine ⟨?_, ?_, ?_⟩
    · exact List.mem_append_left _ (List.mem_map.mpr ⟨s, hs, rfl⟩)
    · exact List.mem_append_right _
        (List.mem_flatMap.mpr ⟨s, hs, by simp⟩)
    · exact List.mem_append_right _
        (List.mem_flatMap.mpr ⟨s, hs, by simp⟩)
  · intro hf
    subst hf
    rfl
  · intro h1 h2
    unfold compileCaseFile
    rw [if_neg h1, if_neg h2]

/-- C9 witness at a concrete one-ticker input. -/
theorem report_outputs_spec_witness :
    compileCaseFile ["AAPL"] "txt" = Except.ok ⟨"financial_case_file.txt", []⟩ :=
  (report_outputs_spec ["AAPL"] "txt").2.1 rfl

end FinanceDetective
